import Mathlib

/-!
Verification of the `async-no-await` rule (src/src/rules/async-no-await.ts).

The rule is a scope-tracking analysis driven by tree enter/exit events:
a stack of `ScopeInfo` records (field `upper` of the source is the tail of
the list here; the head is the current top), handlers `enterFunction`,
`exitFunction`, `enterShortCircuitExpression`, `exitShortCircuitExpression`,
`addNoAwaitCalls` and the `CallExpression` visitor, and an external type
checker consulted through `isThenableType` (modelled as an oracle
`Nat → Bool` keyed by the TypeScript node identity of a call expression).

`step` dispatches one visitor event exactly as the handler table returned by
`create` does; `runFrom` folds a whole event sequence, collecting the
diagnostics reported through `context.report` in order, together with the
list of oracle queries performed.  A syntax tree (`Node`) generates its
event sequence (`nodeEvents`) in the document pre/post order the visitor
framework guarantees, and a structural characterization of the whole
analysis (`analyzeN`, `checkableCallsN`, `queriesN`) is proved equal to the
event-driven run.
-/

namespace AsyncNoAwait

/-- Source location: start line and column, as used for diagnostic anchors. -/
structure Loc where
  line : Nat
  col : Nat
deriving DecidableEq, Repr

/-- One record of the scope stack (interface `ScopeInfo` of the source;
its `upper` pointer is represented by the tail of the stack list). -/
structure ScopeInfo where
  hasAsyncCheck : Bool
  noAwaitCalls : List String
deriving DecidableEq, Repr

/-- The data of a `FunctionNode` that the handlers read: its `async` flag
and its head location (`utils.getFunctionHeadLoc`). -/
structure FunctionNode where
  async : Bool
  headLoc : Loc
deriving DecidableEq, Repr

/-- A call expression callee: a plain `Identifier` (with its name and
location) or any other callee shape. -/
inductive CalleeKind where
  | ident (name : String) (loc : Loc)
  | other
deriving DecidableEq, Repr

/-- The data of a `CallExpression` node that the visitor reads: its callee,
whether `esTreeNodeToTSNodeMap.get` finds a TypeScript node for it, and the
identity of that node, used as the key for the type-checker oracle. -/
structure CallExpressionNode where
  callee : CalleeKind
  tsnodeFound : Bool
  tsNodeId : Nat
deriving DecidableEq, Repr

/-- A diagnostic reported through `context.report`: the per-call eager
report and the per-function summary, each with its anchor location. -/
inductive Diagnostic where
  | asyncCallNoAwait (loc : Loc)
  | noAwaitBeforeReturnPromise (loc : Loc) (noAwaitCalls : List String)
deriving DecidableEq, Repr

/-- The Type Oracle: for a TypeScript node identity, whether
`tsutils.isThenableType` holds of its type. -/
abbrev Oracle := Nat → Bool

/-- The descriptor string pushed for a violating call:
`` `${callee.name}(line: ${callee.loc.start.line})` ``. -/
def descr (name : String) (line : Nat) : String :=
  name ++ "(line: " ++ toString line ++ ")"

/-- `enterFunction`: push a scope record with `hasAsyncCheck = node.async`
and empty `noAwaitCalls`. -/
def enterFunction (node : FunctionNode) (s : List ScopeInfo) : List ScopeInfo :=
  { hasAsyncCheck := node.async, noAwaitCalls := [] } :: s

/-- `exitFunction`: defensive no-op on an empty stack; otherwise pop, and
report `noAwaitBeforeReturnPromise` at the function head location when the
function is async and the popped record collected calls. -/
def exitFunction (node : FunctionNode) (s : List ScopeInfo) :
    List ScopeInfo × List Diagnostic :=
  match s with
  | [] => ([], [])
  | top :: rest =>
    (rest,
     if node.async && top.noAwaitCalls.length > 0 then
       [Diagnostic.noAwaitBeforeReturnPromise node.headLoc top.noAwaitCalls]
     else [])

/-- `enterShortCircuitExpression`: push a scope record with
`hasAsyncCheck = false` and empty `noAwaitCalls`, unconditionally. -/
def enterShortCircuitExpression (s : List ScopeInfo) : List ScopeInfo :=
  { hasAsyncCheck := false, noAwaitCalls := [] } :: s

/-- `exitShortCircuitExpression`: defensive no-op on an empty stack;
otherwise pop without reporting. -/
def exitShortCircuitExpression (s : List ScopeInfo) : List ScopeInfo :=
  match s with
  | [] => []
  | _ :: rest => rest

/-- `addNoAwaitCalls`: if a scope is active, append the descriptor string to
the top record's `noAwaitCalls` and immediately report `asyncCallNoAwait`
anchored at the callee's location. -/
def addNoAwaitCalls (name : String) (calleeLoc : Loc) (s : List ScopeInfo) :
    List ScopeInfo × List Diagnostic :=
  match s with
  | [] => ([], [])
  | top :: rest =>
    ({ top with noAwaitCalls := top.noAwaitCalls ++ [descr name calleeLoc.line] } :: rest,
     [Diagnostic.asyncCallNoAwait calleeLoc])

/-- `isThenableType`: the type-checker query, modelled as an oracle lookup. -/
def isThenableType (o : Oracle) (tsNodeId : Nat) : Bool := o tsNodeId

/-- The `CallExpression` visitor: short-circuit when no scope is active or
the top scope's `hasAsyncCheck` is false; otherwise, when a TypeScript node
is found, query the oracle, and on a thenable answer record and report the
call when its callee is a plain identifier.  The third component lists the
oracle queries performed. -/
def callExpression (o : Oracle) (node : CallExpressionNode) (s : List ScopeInfo) :
    List ScopeInfo × List Diagnostic × List Nat :=
  match s with
  | [] => ([], [], [])
  | top :: rest =>
    if !top.hasAsyncCheck then (top :: rest, [], [])
    else if node.tsnodeFound then
      if isThenableType o node.tsNodeId then
        match node.callee with
        | CalleeKind.ident name loc =>
          let r := addNoAwaitCalls name loc (top :: rest)
          (r.1, r.2, [node.tsNodeId])
        | CalleeKind.other => (top :: rest, [], [node.tsNodeId])
      else (top :: rest, [], [node.tsNodeId])
    else (top :: rest, [], [])

/-- A visitor event, as dispatched by the handler table of `create`. -/
inductive Event where
  | enterFunction (node : FunctionNode)
  | exitFunction (node : FunctionNode)
  | enterShortCircuitExpression
  | exitShortCircuitExpression
  | callExpression (node : CallExpressionNode)
deriving DecidableEq, Repr

/-- Dispatch one event to its handler.  Result: new stack, diagnostics
reported during the event, oracle queries performed during the event. -/
def step (o : Oracle) (s : List ScopeInfo) :
    Event → List ScopeInfo × List Diagnostic × List Nat
  | Event.enterFunction n => (enterFunction n s, [], [])
  | Event.exitFunction n =>
    let r := exitFunction n s
    (r.1, r.2, [])
  | Event.enterShortCircuitExpression => (enterShortCircuitExpression s, [], [])
  | Event.exitShortCircuitExpression => (exitShortCircuitExpression s, [], [])
  | Event.callExpression n => callExpression o n s

/-- Fold a whole event sequence from a starting stack, concatenating the
diagnostics and the oracle queries in order. -/
def runFrom (o : Oracle) (s : List ScopeInfo) :
    List Event → List ScopeInfo × List Diagnostic × List Nat
  | [] => (s, [], [])
  | e :: evs =>
    let r1 := step o s e
    let r2 := runFrom o r1.1 evs
    (r2.1, r1.2.1 ++ r2.2.1, r1.2.2 ++ r2.2.2)

/-- A whole analysis run: `create` initializes `scopeInfo` to `null`, so the
run starts from the empty stack. -/
def run (o : Oracle) (evs : List Event) :
    List ScopeInfo × List Diagnostic × List Nat :=
  runFrom o [] evs

/-- Whether a diagnostic is the eager per-call report. -/
def isPerCall : Diagnostic → Bool
  | Diagnostic.asyncCallNoAwait _ => true
  | Diagnostic.noAwaitBeforeReturnPromise _ _ => false

/-- Whether a callee is a plain identifier. -/
def isIdentCallee : CalleeKind → Bool
  | CalleeKind.ident _ _ => true
  | CalleeKind.other => false

/-- Invariant of the scope stack: a record whose `hasAsyncCheck` is false
never accumulates `noAwaitCalls`. -/
def InvCheckable (s : List ScopeInfo) : Prop :=
  ∀ sc ∈ s, sc.hasAsyncCheck = false → sc.noAwaitCalls = []

mutual

/-- A syntax-tree node of one of the kinds the rule registers handlers for.
Other node kinds have no handler, so they are transparent: their children
appear directly in their parent's child list.
`func` covers FunctionDeclaration, FunctionExpression and
ArrowFunctionExpression; `shortCircuit` covers AwaitExpression,
ReturnStatement and await-marked ForOfStatement (the extra selector for an
AwaitExpression directly under an async arrow fires a second, nested
push/pop of the same kind, so it is representable as two nested
`shortCircuit` nodes); `call` covers CallExpression, which has an enter
handler only. -/
inductive Node where
  | func (node : FunctionNode) (children : NodeList)
  | shortCircuit (children : NodeList)
  | call (node : CallExpressionNode) (children : NodeList)

/-- A list of sibling nodes in document order. -/
inductive NodeList where
  | nil : NodeList
  | cons : Node → NodeList → NodeList

end

mutual

/-- The event sequence the visitor framework dispatches for a node's
subtree: enter in pre-order, exit in post-order. -/
def nodeEvents : Node → List Event
  | Node.func f cs =>
    Event.enterFunction f :: (nodeListEvents cs ++ [Event.exitFunction f])
  | Node.shortCircuit cs =>
    Event.enterShortCircuitExpression ::
      (nodeListEvents cs ++ [Event.exitShortCircuitExpression])
  | Node.call c cs => Event.callExpression c :: nodeListEvents cs

/-- Event sequence of a sibling list, in document order. -/
def nodeListEvents : NodeList → List Event
  | NodeList.nil => []
  | NodeList.cons n ns => nodeEvents n ++ nodeListEvents ns

end

mutual

/-- The `(name, calleeLoc)` pairs of the thenable identifier calls of a
subtree that belong to the scope enclosing it: collection stops at nested
functions and at suspension boundaries, which open their own scopes. -/
def checkableCallsN (o : Oracle) : Node → List (String × Loc)
  | Node.func _ _ => []
  | Node.shortCircuit _ => []
  | Node.call c cs =>
    (if c.tsnodeFound && o c.tsNodeId then
       match c.callee with
       | CalleeKind.ident name loc => [(name, loc)]
       | CalleeKind.other => []
     else []) ++ checkableCallsL o cs

/-- `checkableCallsN` over a sibling list, in document order. -/
def checkableCallsL (o : Oracle) : NodeList → List (String × Loc)
  | NodeList.nil => []
  | NodeList.cons n ns => checkableCallsN o n ++ checkableCallsL o ns

end

/-- Descriptor string of a collected call. -/
def descrPair (p : String × Loc) : String := descr p.1 p.2.line

mutual

/-- Structural characterization of the diagnostics emitted while visiting a
node whose enclosing scope has the given `hasAsyncCheck` flag (`false` also
stands for "no active scope": both short-circuit the classifier). -/
def analyzeN (o : Oracle) : Node → Bool → List Diagnostic
  | Node.func f cs, _ =>
    analyzeL o cs f.async ++
      (if f.async && ((checkableCallsL o cs).map descrPair).length > 0 then
         [Diagnostic.noAwaitBeforeReturnPromise f.headLoc
            ((checkableCallsL o cs).map descrPair)]
       else [])
  | Node.shortCircuit cs, _ => analyzeL o cs false
  | Node.call c cs, flag =>
    (if flag && c.tsnodeFound && o c.tsNodeId then
       match c.callee with
       | CalleeKind.ident _ loc => [Diagnostic.asyncCallNoAwait loc]
       | CalleeKind.other => []
     else []) ++ analyzeL o cs flag

/-- `analyzeN` over a sibling list, in document order. -/
def analyzeL (o : Oracle) : NodeList → Bool → List Diagnostic
  | NodeList.nil, _ => []
  | NodeList.cons n ns, flag => analyzeN o n flag ++ analyzeL o ns flag

end

mutual

/-- Structural characterization of the oracle queries performed while
visiting a node under the given enclosing `hasAsyncCheck` flag: a query
happens exactly when the classifier is not short-circuited and a
TypeScript node was found, before the callee's shape is inspected. -/
def queriesN (o : Oracle) : Node → Bool → List Nat
  | Node.func f cs, _ => queriesL o cs f.async
  | Node.shortCircuit cs, _ => queriesL o cs false
  | Node.call c cs, flag =>
    (if flag && c.tsnodeFound then [c.tsNodeId] else []) ++ queriesL o cs flag

/-- `queriesN` over a sibling list, in document order. -/
def queriesL (o : Oracle) : NodeList → Bool → List Nat
  | NodeList.nil, _ => []
  | NodeList.cons n ns, flag => queriesN o n flag ++ queriesL o ns flag

end

mutual

/-- The number of classified violations in a subtree under the given
enclosing `hasAsyncCheck` flag, counting nested function scopes with their
own flags. -/
def numQualN (o : Oracle) : Node → Bool → Nat
  | Node.func f cs, _ => numQualL o cs f.async
  | Node.shortCircuit cs, _ => numQualL o cs false
  | Node.call c cs, flag =>
    (if flag && c.tsnodeFound && o c.tsNodeId && isIdentCallee c.callee then 1 else 0)
      + numQualL o cs flag

/-- `numQualN` over a sibling list. -/
def numQualL (o : Oracle) : NodeList → Bool → Nat
  | NodeList.nil, _ => 0
  | NodeList.cons n ns, flag => numQualN o n flag + numQualL o ns flag

end

/-- An oracle that classifies every call's type as thenable. -/
def oTrue : Oracle := fun _ => true

/-- An oracle that classifies exactly the node with identity 0 as thenable. -/
def oZero : Oracle := fun n => decide (n = 0)

/-- A thenable call `g()` through a plain identifier callee. -/
def cGCall : CallExpressionNode := ⟨CalleeKind.ident "g" ⟨1, 17⟩, true, 0⟩

/-- A call through a non-identifier callee (e.g. `obj.g()`). -/
def cOtherCall : CallExpressionNode := ⟨CalleeKind.other, true, 0⟩

/-- The header of an async function declared on line 1. -/
def fHead : FunctionNode := ⟨true, ⟨1, 0⟩⟩

/-- The header of a non-async function declared on line 1. -/
def fSync : FunctionNode := ⟨false, ⟨1, 0⟩⟩

/-- The header of an async function declared on line 2. -/
def fInner : FunctionNode := ⟨true, ⟨2, 2⟩⟩

/-- Child list holding the single call `g()`. -/
def csOne : NodeList := NodeList.cons (Node.call cGCall NodeList.nil) NodeList.nil

/-- The event sequence of `async function f() { g(); }`. -/
def evsOne : List Event :=
  [Event.enterFunction fHead, Event.callExpression cGCall, Event.exitFunction fHead]

theorem runFrom_append (o : Oracle) (s : List ScopeInfo) (evs1 evs2 : List Event) :
    runFrom o s (evs1 ++ evs2)
      = ((runFrom o (runFrom o s evs1).1 evs2).1,
         (runFrom o s evs1).2.1 ++ (runFrom o (runFrom o s evs1).1 evs2).2.1,
         (runFrom o s evs1).2.2 ++ (runFrom o (runFrom o s evs1).1 evs2).2.2) := by
  induction evs1 generalizing s with
  | nil => simp [runFrom]
  | cons e evs ih =>
    simp [runFrom, ih, List.append_assoc]

mutual

theorem runFrom_nodeEvents (o : Oracle) (n : Node) (top : ScopeInfo) (rest : List ScopeInfo) :
    runFrom o (top :: rest) (nodeEvents n)
      = ({ top with noAwaitCalls := top.noAwaitCalls ++
            (if top.hasAsyncCheck then (checkableCallsN o n).map descrPair else []) } :: rest,
         analyzeN o n top.hasAsyncCheck,
         queriesN o n top.hasAsyncCheck) := by
  cases n with
  | func f cs =>
    have ih := runFrom_nodeListEvents o cs
      { hasAsyncCheck := f.async, noAwaitCalls := [] } (top :: rest)
    simp only [nodeEvents, runFrom, step, enterFunction, runFrom_append, ih]
    cases hfa : f.async <;>
      simp [exitFunction, analyzeN, checkableCallsN, queriesN, hfa]
  | shortCircuit cs =>
    have ih := runFrom_nodeListEvents o cs
      { hasAsyncCheck := false, noAwaitCalls := [] } (top :: rest)
    simp only [nodeEvents, runFrom, step, enterShortCircuitExpression, runFrom_append, ih]
    simp [exitShortCircuitExpression, analyzeN, checkableCallsN, queriesN]
  | call c cs =>
    cases hA : top.hasAsyncCheck
    · have ih := runFrom_nodeListEvents o cs top rest
      simp [nodeEvents, runFrom, step, callExpression, hA,
        analyzeN, checkableCallsN, queriesN, ih]
    · cases hF : c.tsnodeFound
      · have ih := runFrom_nodeListEvents o cs top rest
        simp [nodeEvents, runFrom, step, callExpression, hA, hF,
          analyzeN, checkableCallsN, queriesN, ih]
      · cases hO : o c.tsNodeId
        · have ih := runFrom_nodeListEvents o cs top rest
          simp [nodeEvents, runFrom, step, callExpression, isThenableType, hA, hF, hO,
            analyzeN, checkableCallsN, queriesN, ih]
        · cases hc : c.callee with
          | ident name loc =>
            have ih := runFrom_nodeListEvents o cs
              { top with noAwaitCalls := top.noAwaitCalls ++ [descr name loc.line] } rest
            simp [hA] at ih
            simp [nodeEvents, runFrom, step, callExpression, addNoAwaitCalls, isThenableType,
              hA, hF, hO, hc, analyzeN, checkableCallsN, queriesN, descrPair, ih]
          | other =>
            have ih := runFrom_nodeListEvents o cs top rest
            simp [nodeEvents, runFrom, step, callExpression, isThenableType,
              hA, hF, hO, hc, analyzeN, checkableCallsN, queriesN, ih]

theorem runFrom_nodeListEvents (o : Oracle) (cs : NodeList) (top : ScopeInfo)
    (rest : List ScopeInfo) :
    runFrom o (top :: rest) (nodeListEvents cs)
      = ({ top with noAwaitCalls := top.noAwaitCalls ++
            (if top.hasAsyncCheck then (checkableCallsL o cs).map descrPair else []) } :: rest,
         analyzeL o cs top.hasAsyncCheck,
         queriesL o cs top.hasAsyncCheck) := by
  cases cs with
  | nil => simp [nodeListEvents, runFrom, checkableCallsL, analyzeL, queriesL]
  | cons n ns =>
    have ih1 := runFrom_nodeEvents o n top rest
    have ih2 := runFrom_nodeListEvents o ns
      { top with noAwaitCalls := top.noAwaitCalls ++
          (if top.hasAsyncCheck then (checkableCallsN o n).map descrPair else []) } rest
    simp only [nodeListEvents, runFrom_append, ih1, ih2]
    cases hA : top.hasAsyncCheck <;>
      simp [hA, checkableCallsL, analyzeL, queriesL, List.append_assoc]

end

mutual

theorem countP_analyzeN (o : Oracle) (n : Node) (flag : Bool) :
    (analyzeN o n flag).countP isPerCall = numQualN o n flag := by
  cases n with
  | func f cs =>
    have ih := countP_analyzeL o cs f.async
    simp only [analyzeN, numQualN, List.countP_append, ih]
    split <;> simp [isPerCall]
  | shortCircuit cs =>
    have ih := countP_analyzeL o cs false
    simpa [analyzeN, numQualN] using ih
  | call c cs =>
    have ih := countP_analyzeL o cs flag
    cases hc : c.callee <;>
      cases hf : flag <;> cases hF : c.tsnodeFound <;> cases hO : o c.tsNodeId <;>
      (rw [hf] at ih;
       simp [analyzeN, numQualN, List.countP_append, List.countP_cons, ih, hc, hf, hF, hO,
         isIdentCallee, isPerCall])
    all_goals omega

theorem countP_analyzeL (o : Oracle) (cs : NodeList) (flag : Bool) :
    (analyzeL o cs flag).countP isPerCall = numQualL o cs flag := by
  cases cs with
  | nil => simp [analyzeL, numQualL]
  | cons n ns =>
    have ih1 := countP_analyzeN o n flag
    have ih2 := countP_analyzeL o ns flag
    simp [analyzeL, numQualL, List.countP_append, ih1, ih2]

end

mutual

theorem mem_analyzeN (o : Oracle) (n : Node) (p : String × Loc)
    (hp : p ∈ checkableCallsN o n) :
    Diagnostic.asyncCallNoAwait p.2 ∈ analyzeN o n true := by
  cases n with
  | func f cs => simp [checkableCallsN] at hp
  | shortCircuit cs => simp [checkableCallsN] at hp
  | call c cs =>
    simp only [checkableCallsN, List.mem_append] at hp
    rcases hp with h | h
    · cases hF : c.tsnodeFound with
      | false => simp [hF] at h
      | true =>
        cases hO : o c.tsNodeId with
        | false => simp [hF, hO] at h
        | true =>
          cases hc : c.callee with
          | ident name loc =>
            simp [hF, hO, hc] at h
            simp [analyzeN, hF, hO, hc, h]
          | other => simp [hF, hO, hc] at h
    · simp only [analyzeN, List.mem_append]
      exact Or.inr (mem_analyzeL o cs p h)

theorem mem_analyzeL (o : Oracle) (cs : NodeList) (p : String × Loc)
    (hp : p ∈ checkableCallsL o cs) :
    Diagnostic.asyncCallNoAwait p.2 ∈ analyzeL o cs true := by
  cases cs with
  | nil => simp [checkableCallsL] at hp
  | cons n ns =>
    simp only [checkableCallsL, List.mem_append] at hp
    simp only [analyzeL, List.mem_append]
    rcases hp with h | h
    · exact Or.inl (mem_analyzeN o n p h)
    · exact Or.inr (mem_analyzeL o ns p h)

end

theorem run_func (o : Oracle) (f : FunctionNode) (cs : NodeList) :
    run o (nodeEvents (Node.func f cs))
      = ([],
         analyzeL o cs f.async ++
           (if f.async && ((checkableCallsL o cs).map descrPair).length > 0 then
              [Diagnostic.noAwaitBeforeReturnPromise f.headLoc
                 ((checkableCallsL o cs).map descrPair)]
            else []),
         queriesL o cs f.async) := by
  have ih := runFrom_nodeListEvents o cs { hasAsyncCheck := f.async, noAwaitCalls := [] } []
  simp only [run, nodeEvents, runFrom, step, enterFunction, runFrom_append, ih]
  cases hfa : f.async <;> simp [exitFunction, hfa]

theorem step_oracle_agree (o1 o2 : Oracle) (s : List ScopeInfo) (e : Event)
    (h : ∀ id ∈ (step o1 s e).2.2, o1 id = o2 id) :
    step o1 s e = step o2 s e := by
  cases e with
  | enterFunction f => rfl
  | exitFunction f => rfl
  | enterShortCircuitExpression => rfl
  | exitShortCircuitExpression => rfl
  | callExpression c =>
    cases s with
    | nil => rfl
    | cons top rest =>
      cases hA : top.hasAsyncCheck
      · simp [step, callExpression, hA]
      · cases hF : c.tsnodeFound
        · simp [step, callExpression, hA, hF]
        · have hq : o1 c.tsNodeId = o2 c.tsNodeId := by
            apply h
            cases hO1 : o1 c.tsNodeId <;> cases hc : c.callee <;>
              simp [step, callExpression, addNoAwaitCalls, isThenableType, hA, hF, hO1, hc]
          cases hO1 : o1 c.tsNodeId <;> cases hc : c.callee <;>
            simp [step, callExpression, addNoAwaitCalls, isThenableType, hA, hF, hO1, hc, ← hq]

theorem runFrom_oracle_agree (o1 o2 : Oracle) (evs : List Event) (s : List ScopeInfo)
    (h : ∀ id ∈ (runFrom o1 s evs).2.2, o1 id = o2 id) :
    runFrom o1 s evs = runFrom o2 s evs := by
  induction evs generalizing s with
  | nil => rfl
  | cons e rest ih =>
    have hstep : step o1 s e = step o2 s e := by
      apply step_oracle_agree
      intro id hid
      apply h
      simp only [runFrom, List.mem_append]
      exact Or.inl hid
    have hrest : runFrom o1 (step o1 s e).1 rest = runFrom o2 (step o1 s e).1 rest := by
      apply ih
      intro id hid
      apply h
      simp only [runFrom, List.mem_append]
      exact Or.inr hid
    simp only [runFrom]
    rw [← hstep, ← hrest]

theorem step_preserves_InvCheckable (o : Oracle) (s : List ScopeInfo) (e : Event)
    (h : InvCheckable s) : InvCheckable (step o s e).1 := by
  cases e with
  | enterFunction f =>
    intro sc hsc
    simp only [step, enterFunction, List.mem_cons] at hsc
    rcases hsc with rfl | hmem
    · intro _; rfl
    · exact h sc hmem
  | exitFunction f =>
    intro sc hsc
    apply h
    cases s with
    | nil => simp [step, exitFunction] at hsc
    | cons top rest =>
      simp only [step, exitFunction] at hsc
      exact List.mem_cons_of_mem top hsc
  | enterShortCircuitExpression =>
    intro sc hsc
    simp only [step, enterShortCircuitExpression, List.mem_cons] at hsc
    rcases hsc with rfl | hmem
    · intro _; rfl
    · exact h sc hmem
  | exitShortCircuitExpression =>
    intro sc hsc
    apply h
    cases s with
    | nil => simp [step, exitShortCircuitExpression] at hsc
    | cons top rest =>
      simp only [step, exitShortCircuitExpression] at hsc
      exact List.mem_cons_of_mem top hsc
  | callExpression c =>
    cases s with
    | nil => intro sc hsc; simp [step, callExpression] at hsc
    | cons top rest =>
      cases hA : top.hasAsyncCheck
      · intro sc hsc
        simp only [step, callExpression, hA] at hsc
        exact h sc hsc
      · cases hF : c.tsnodeFound
        · intro sc hsc
          simp only [step, callExpression, hA, hF] at hsc
          exact h sc hsc
        · cases hO : o c.tsNodeId
          · intro sc hsc
            simp only [step, callExpression, isThenableType, hA, hF, hO] at hsc
            exact h sc hsc
          · cases hc : c.callee with
            | ident name loc =>
              intro sc hsc
              simp only [step, callExpression, addNoAwaitCalls, isThenableType,
                hA, hF, hO, hc] at hsc
              rcases List.mem_cons.mp hsc with rfl | hmem
              · intro hfalse
                simp [hA] at hfalse
              · exact h sc (List.mem_cons_of_mem top hmem)
            | other =>
              intro sc hsc
              simp only [step, callExpression, isThenableType, hA, hF, hO, hc] at hsc
              exact h sc hsc

/-- C1: For an asynchronous function whose body contains at least one
un-awaited thenable identifier call belonging to its own scope (not nested
inside a suspension-boundary subtree or an inner function), the run over
the function's subtree emits exactly the structurally characterized
diagnostic list: the per-call diagnostics of the body followed by exactly
one `noAwaitBeforeReturnPromise` summary at the function's head location
whose payload lists the descriptors of all such calls in source order; the
number of `asyncCallNoAwait` diagnostics equals the number of classified
calls, and each such call contributes one anchored at its callee's
location. -/
theorem C1_async_function_diagnostics (o : Oracle) (f : FunctionNode) (cs : NodeList)
    (hasync : f.async = true) (hne : checkableCallsL o cs ≠ []) :
    (run o (nodeEvents (Node.func f cs))).2.1
      = analyzeL o cs true ++
        [Diagnostic.noAwaitBeforeReturnPromise f.headLoc
           ((checkableCallsL o cs).map descrPair)]
    ∧ (run o (nodeEvents (Node.func f cs))).2.1.countP isPerCall
        = numQualN o (Node.func f cs) true
    ∧ ∀ p ∈ checkableCallsL o cs,
        Diagnostic.asyncCallNoAwait p.2 ∈ (run o (nodeEvents (Node.func f cs))).2.1 := by
  have hlen : ((checkableCallsL o cs).map descrPair).length > 0 := by
    simpa [List.length_pos] using hne
  refine ⟨?_, ?_, ?_⟩
  · rw [run_func]
    simp [hasync, hlen, hne]
  · rw [run_func]
    simp [hasync, hlen, hne, numQualN, List.countP_append, countP_analyzeL, isPerCall]
  · intro p hp
    rw [run_func]
    simp [hasync, hlen, hne]
    exact mem_analyzeL o cs p hp

/-- Witness for C1: `async function f() { g(); }` with `g` thenable. -/
theorem C1_async_function_diagnostics_witness :
    (fHead.async = true ∧ checkableCallsL oTrue csOne ≠ [])
    ∧ ((run oTrue (nodeEvents (Node.func fHead csOne))).2.1
        = analyzeL oTrue csOne true ++
          [Diagnostic.noAwaitBeforeReturnPromise fHead.headLoc
             ((checkableCallsL oTrue csOne).map descrPair)]
      ∧ (run oTrue (nodeEvents (Node.func fHead csOne))).2.1.countP isPerCall
          = numQualN oTrue (Node.func fHead csOne) true
      ∧ ∀ p ∈ checkableCallsL oTrue csOne,
          Diagnostic.asyncCallNoAwait p.2
            ∈ (run oTrue (nodeEvents (Node.func fHead csOne))).2.1) :=
  ⟨⟨rfl, by decide⟩, C1_async_function_diagnostics oTrue fHead csOne rfl (by decide)⟩

/-- C2: a call event arriving with no active scope, or while the top
scope's `hasAsyncCheck` is false, leaves the stack unchanged, reports
nothing and performs no oracle query; consequently a call inside a
non-asynchronous function produces zero diagnostics and zero type queries
whatever the oracle would answer. -/
theorem C2_short_circuit_before_type_query (o : Oracle) (c : CallExpressionNode)
    (s : List ScopeInfo) (f : FunctionNode)
    (h : s = [] ∨ ∃ top rest, s = top :: rest ∧ top.hasAsyncCheck = false) :
    step o s (Event.callExpression c) = (s, [], [])
    ∧ (f.async = false →
        run o (nodeEvents
          (Node.func f (NodeList.cons (Node.call c NodeList.nil) NodeList.nil)))
          = ([], [], [])) := by
  constructor
  · rcases h with h | ⟨top, rest, hs, hA⟩
    · subst h; rfl
    · subst hs; simp [step, callExpression, hA]
  · intro hf
    rw [run_func]
    simp [hf, analyzeL, analyzeN, queriesL, queriesN]

/-- Witness for C2: no active scope, and `function f() { g(); }`. -/
theorem C2_short_circuit_before_type_query_witness :
    (([] : List ScopeInfo) = []
      ∨ ∃ top rest, ([] : List ScopeInfo) = top :: rest ∧ top.hasAsyncCheck = false)
    ∧ (step oTrue [] (Event.callExpression cGCall) = ([], [], [])
      ∧ (fSync.async = false →
          run oTrue (nodeEvents
            (Node.func fSync (NodeList.cons (Node.call cGCall NodeList.nil) NodeList.nil)))
            = ([], [], []))) :=
  ⟨Or.inl rfl, C2_short_circuit_before_type_query oTrue cGCall [] fSync (Or.inl rfl)⟩

/-- C3: a call through a non-identifier callee is never recorded and never
reported: the stack is returned unchanged and no diagnostic is emitted,
for every oracle (in particular one that classifies the call as
thenable). -/
theorem C3_non_identifier_callee_never_reported (o : Oracle) (s : List ScopeInfo)
    (c : CallExpressionNode) (h : c.callee = CalleeKind.other) :
    (step o s (Event.callExpression c)).1 = s
    ∧ (step o s (Event.callExpression c)).2.1 = [] := by
  cases s with
  | nil => exact ⟨rfl, rfl⟩
  | cons top rest =>
    cases hA : top.hasAsyncCheck <;> cases hF : c.tsnodeFound <;> cases hO : o c.tsNodeId <;>
      simp [step, callExpression, isThenableType, h, hA, hF, hO]

/-- Witness for C3: a thenable member-expression call inside a checkable
scope. -/
theorem C3_non_identifier_callee_never_reported_witness :
    cOtherCall.callee = CalleeKind.other
    ∧ ((step oTrue [⟨true, []⟩] (Event.callExpression cOtherCall)).1 = [⟨true, []⟩]
      ∧ (step oTrue [⟨true, []⟩] (Event.callExpression cOtherCall)).2.1 = []) :=
  ⟨rfl, C3_non_identifier_callee_never_reported oTrue [⟨true, []⟩] cOtherCall rfl⟩

/-- C4: entering a suspension boundary pushes a scope record with
`hasAsyncCheck = false` and empty `pendingCalls` unconditionally — whatever
the current stack is; consequently a thenable call whose only scope-opening
ancestors are a function and a suspension boundary under it (a directly
awaited call, or a call inside a return statement's expression) produces
zero diagnostics. -/
theorem C4_suspension_boundary_suppresses (o : Oracle) (s : List ScopeInfo)
    (f : FunctionNode) (c : CallExpressionNode) :
    step o s Event.enterShortCircuitExpression
      = ({ hasAsyncCheck := false, noAwaitCalls := [] } :: s, [], [])
    ∧ (run o (nodeEvents (Node.func f
        (NodeList.cons
          (Node.shortCircuit (NodeList.cons (Node.call c NodeList.nil) NodeList.nil))
          NodeList.nil)))).2.1 = [] := by
  constructor
  · rfl
  · rw [run_func]
    simp [analyzeL, analyzeN, checkableCallsL, checkableCallsN]

/-- C5: a call event only ever modifies the top record of the stack: the
ancestors come back unchanged; consequently a violation inside a nested
async function appears in the inner function's summary only, and the
enclosing async function reports nothing. -/
theorem C5_append_only_to_top (o : Oracle) (top : ScopeInfo) (rest : List ScopeInfo)
    (fOut fIn : FunctionNode) (c : CallExpressionNode) (name : String) (loc : Loc)
    (hIn : fIn.async = true) (hc : c.callee = CalleeKind.ident name loc)
    (hF : c.tsnodeFound = true) (hO : o c.tsNodeId = true) :
    (∀ c2 : CallExpressionNode,
      (step o (top :: rest) (Event.callExpression c2)).1.tail = rest)
    ∧ (run o (nodeEvents (Node.func fOut
        (NodeList.cons
          (Node.func fIn (NodeList.cons (Node.call c NodeList.nil) NodeList.nil))
          NodeList.nil)))).2.1
      = [Diagnostic.asyncCallNoAwait loc,
         Diagnostic.noAwaitBeforeReturnPromise fIn.headLoc [descr name loc.line]] := by
  constructor
  · intro c2
    cases hA : top.hasAsyncCheck <;> cases hF2 : c2.tsnodeFound <;>
      cases hO2 : o c2.tsNodeId <;> cases hc2 : c2.callee <;>
      simp [step, callExpression, addNoAwaitCalls, isThenableType, hA, hF2, hO2, hc2]
  · rw [run_func]
    simp [analyzeL, analyzeN, checkableCallsL, checkableCallsN, descrPair,
      hIn, hc, hF, hO]

/-- Witness for C5:
`async function outer() { async function inner() { g(); } }`. -/
theorem C5_append_only_to_top_witness :
    (fInner.async = true ∧ cGCall.callee = CalleeKind.ident "g" ⟨1, 17⟩
      ∧ cGCall.tsnodeFound = true ∧ oTrue cGCall.tsNodeId = true)
    ∧ ((∀ c2 : CallExpressionNode,
        (step oTrue [⟨true, []⟩] (Event.callExpression c2)).1.tail = [])
      ∧ (run oTrue (nodeEvents (Node.func fHead
          (NodeList.cons
            (Node.func fInner (NodeList.cons (Node.call cGCall NodeList.nil) NodeList.nil))
            NodeList.nil)))).2.1
        = [Diagnostic.asyncCallNoAwait ⟨1, 17⟩,
           Diagnostic.noAwaitBeforeReturnPromise fInner.headLoc [descr "g" 1]]) :=
  ⟨⟨rfl, rfl, rfl, rfl⟩,
   C5_append_only_to_top oTrue ⟨true, []⟩ [] fHead fInner cGCall "g" ⟨1, 17⟩
     rfl rfl rfl rfl⟩

/-- C6: an exit event arriving with no active scope is a no-op for both the
function-exit and the suspension-boundary-exit handlers: no diagnostic, no
query, and the stack stays empty. -/
theorem C6_empty_stack_pop_noop (o : Oracle) (f : FunctionNode) :
    step o [] (Event.exitFunction f) = ([], [], [])
    ∧ step o [] Event.exitShortCircuitExpression = ([], [], []) :=
  ⟨rfl, rfl⟩

/-- C7: popping a suspension-boundary scope never emits a diagnostic, and a
`noAwaitBeforeReturnPromise` summary can only arise from a function-exit
event. -/
theorem C7_summary_only_on_function_exit (o : Oracle) (s : List ScopeInfo) :
    (step o s Event.exitShortCircuitExpression).2.1 = []
    ∧ ∀ (e : Event) (l : Loc) (p : List String),
        Diagnostic.noAwaitBeforeReturnPromise l p ∈ (step o s e).2.1 →
        ∃ f, e = Event.exitFunction f := by
  constructor
  · rfl
  · intro e l p hmem
    cases e with
    | exitFunction f => exact ⟨f, rfl⟩
    | enterFunction f => simp [step] at hmem
    | enterShortCircuitExpression => simp [step] at hmem
    | exitShortCircuitExpression => simp [step] at hmem
    | callExpression c =>
      cases s with
      | nil => simp [step, callExpression] at hmem
      | cons top rest =>
        cases hA : top.hasAsyncCheck <;> cases hF : c.tsnodeFound <;>
          cases hO : o c.tsNodeId <;> cases hc : c.callee <;>
          simp [step, callExpression, addNoAwaitCalls, isThenableType,
            hA, hF, hO, hc] at hmem

/-- Witness for C7: a summary produced by an async function's exit. -/
theorem C7_summary_only_on_function_exit_witness :
    Diagnostic.noAwaitBeforeReturnPromise ⟨1, 0⟩ ["x"]
        ∈ (step oTrue [⟨true, ["x"]⟩] (Event.exitFunction fHead)).2.1
    ∧ ∃ f, (Event.exitFunction fHead : Event) = Event.exitFunction f :=
  ⟨by decide,
   (C7_summary_only_on_function_exit oTrue [⟨true, ["x"]⟩]).2
     (Event.exitFunction fHead) ⟨1, 0⟩ ["x"] (by decide)⟩

/-- C8: the analysis is deterministic in the event sequence and the oracle
answers: two runs over the same events whose oracles agree on every query
the run performs produce identical results — the same diagnostic list,
element for element and in order. -/
theorem C8_deterministic_run (o1 o2 : Oracle) (evs : List Event)
    (h : ∀ id ∈ (run o1 evs).2.2, o1 id = o2 id) :
    run o1 evs = run o2 evs :=
  runFrom_oracle_agree o1 o2 evs [] h

/-- Witness for C8: two syntactically different oracles agreeing on the one
query of the run of `async function f() { g(); }`. -/
theorem C8_deterministic_run_witness :
    (∀ id ∈ (run oTrue evsOne).2.2, oTrue id = oZero id)
    ∧ run oTrue evsOne = run oZero evsOne :=
  ⟨by decide, C8_deterministic_run oTrue oZero evsOne (by decide)⟩

/-- C9: after every event sequence run from the initial empty stack, every
scope record whose `hasAsyncCheck` is false has empty `noAwaitCalls`; since
this holds for arbitrary sequences it holds after every prefix, i.e. for
the whole lifetime of every record. -/
theorem C9_unchecked_scopes_stay_empty (o : Oracle) (evs : List Event) :
    InvCheckable (run o evs).1 := by
  have hgen : ∀ (evs2 : List Event) (s : List ScopeInfo),
      InvCheckable s → InvCheckable (runFrom o s evs2).1 := by
    intro evs2
    induction evs2 with
    | nil => intro s hs; simpa [runFrom] using hs
    | cons e rest ih =>
      intro s hs
      simp only [runFrom]
      exact ih _ (step_preserves_InvCheckable o s e hs)
  exact hgen evs [] (by intro sc hsc; simp at hsc)

/-- C10: entering a function pushes a scope whose `hasAsyncCheck` is that
function's own `async` flag, independent of the enclosing scopes; hence an
async function nested inside a suspension-boundary subtree still classifies
and reports its thenable identifier calls. -/
theorem C10_inner_async_function_still_checked (o : Oracle) (s : List ScopeInfo)
    (fOut fIn : FunctionNode) (c : CallExpressionNode) (name : String) (loc : Loc)
    (hIn : fIn.async = true) (hc : c.callee = CalleeKind.ident name loc)
    (hF : c.tsnodeFound = true) (hO : o c.tsNodeId = true) :
    step o s (Event.enterFunction fIn)
      = ({ hasAsyncCheck := fIn.async, noAwaitCalls := [] } :: s, [], [])
    ∧ (run o (nodeEvents (Node.func fOut
        (NodeList.cons
          (Node.shortCircuit
            (NodeList.cons
              (Node.func fIn (NodeList.cons (Node.call c NodeList.nil) NodeList.nil))
              NodeList.nil))
          NodeList.nil)))).2.1
      = [Diagnostic.asyncCallNoAwait loc,
         Diagnostic.noAwaitBeforeReturnPromise fIn.headLoc [descr name loc.line]] := by
  constructor
  · rfl
  · rw [run_func]
    simp [analyzeL, analyzeN, checkableCallsL, checkableCallsN, descrPair,
      hIn, hc, hF, hO]

/-- Witness for C10: `async function f() { await (async () => { g(); }); }`
shaped tree: an async function inside a suspension boundary. -/
theorem C10_inner_async_function_still_checked_witness :
    (fInner.async = true ∧ cGCall.callee = CalleeKind.ident "g" ⟨1, 17⟩
      ∧ cGCall.tsnodeFound = true ∧ oTrue cGCall.tsNodeId = true)
    ∧ (step oTrue [] (Event.enterFunction fInner)
        = ({ hasAsyncCheck := fInner.async, noAwaitCalls := [] } :: [], [], [])
      ∧ (run oTrue (nodeEvents (Node.func fHead
          (NodeList.cons
            (Node.shortCircuit
              (NodeList.cons
                (Node.func fInner (NodeList.cons (Node.call cGCall NodeList.nil) NodeList.nil))
                NodeList.nil))
            NodeList.nil)))).2.1
        = [Diagnostic.asyncCallNoAwait ⟨1, 17⟩,
           Diagnostic.noAwaitBeforeReturnPromise fInner.headLoc [descr "g" 1]]) :=
  ⟨⟨rfl, rfl, rfl, rfl⟩,
   C10_inner_async_function_still_checked oTrue [] fHead fInner cGCall "g" ⟨1, 17⟩
     rfl rfl rfl rfl⟩

end AsyncNoAwait
